import Mathlib

/-!
Verification of the `opkit` packaging pipeline (`main` in the repository's
CLI translation unit).  Strings are modelled as `List Char`, the settings
file as an association list from key to value (the C++ code uses
`std::map<std::string, std::string>` with `operator[]` defaulting to the
empty string), and filesystem paths as lists of path segments.
-/

namespace Opkit

/-- Strings, modelled as lists of characters. -/
abbrev Str := List Char

/-- The settings mapping: an association list from key to value. -/
abbrev Settings := List (Str × Str)

/-- A filesystem path, as a list of segments. -/
abbrev FsPath := List Str

/-- Substring containment: `std::string::find(needle) != npos`. -/
def containsSub (needle : Str) : Str → Bool
  | [] => needle.isPrefixOf []
  | c :: rest => needle.isPrefixOf (c :: rest) || containsSub needle rest

/-- Map lookup with the `std::map::operator[]` default of the empty string. -/
def getS : Settings → Str → Str
  | [], _ => []
  | (k', v) :: rest, k => if k' = k then v else getS rest k

/-- Key presence, `std::map::count(key) != 0`. -/
def hasKey : Settings → Str → Bool
  | [], _ => false
  | (k', _) :: rest, k => if k' = k then true else hasKey rest k

/-- Map update (`settings[key] = value`). -/
def setS : Settings → Str → Str → Settings
  | [], k, v => [(k, v)]
  | (k', v') :: rest, k, v =>
      if k' = k then (k, v) :: rest else (k', v') :: setS rest k v

theorem getS_setS_self (s : Settings) (k v : Str) : getS (setS s k v) k = v := by
  induction s with
  | nil => simp [setS, getS]
  | cons p rest ih =>
      obtain ⟨k', v'⟩ := p
      by_cases h : k' = k
      · simp [setS, h, getS]
      · simp [setS, h, getS, ih]

theorem getS_setS_ne (s : Settings) (k v k₂ : Str) (h : k ≠ k₂) :
    getS (setS s k v) k₂ = getS s k₂ := by
  induction s with
  | nil => simp [setS, getS, h]
  | cons p rest ih =>
      obtain ⟨k', v'⟩ := p
      by_cases hk : k' = k
      · simp [setS, hk, getS, h]
      · by_cases hk2 : k' = k₂
        · subst hk2; simp [setS, hk, getS]
        · simp [setS, hk, getS, hk2, ih]

/-! ## Settings keys and fixed strings from the source -/

def nameK : Str := "name".data
def titleK : Str := "title".data
def execK : Str := "executable".data
def outputK : Str := "output".data
def versionK : Str := "version".data
def archK : Str := "arch".data
def revisionK : Str := "revision".data
def cmdK : Str := "_cmd".data
def winCmdK : Str := "win_cmd".data
def macCmdK : Str := "mac_cmd".data
def linuxCmdK : Str := "linux_cmd".data

/-- The `-dev` suffix appended in debug mode. -/
def devSuffix : Str := "-dev".data

/-- The mandatory keys, in the order `main` checks them. -/
def requiredKeys : List Str := [nameK, titleK, execK, outputK, versionK, archK]

/-! ## Settings validation (lines 134–153 of the CLI translation unit) -/

/-- Outcome of the validation block: either proceed, or log a message and
`exit(1)`. -/
inductive ValidationResult where
  | ok : ValidationResult
  | missing (msg : Str) : ValidationResult
deriving DecidableEq

/-- The message logged when no platform build-command key is present. -/
def cmdMissingMsg : Str :=
  "at least one of 'win_cmd', 'mac_cmd', 'linux_cmd' key/value is required".data

/-- The validation block of `main`: first the `_cmd` presence check, then the
loop over the required keys, exiting at the first absent one with a message
naming it. -/
def validateSettings (s : Settings) : ValidationResult :=
  if hasKey s cmdK = false then
    ValidationResult.missing cmdMissingMsg
  else
    match requiredKeys.find? (fun k => !(hasKey s k)) with
    | some k => ValidationResult.missing ("'".data ++ k ++ "' key/value is required".data)
    | none => ValidationResult.ok

/-- All mandatory keys present. -/
def hasAllMandatory (s : Settings) : Bool := requiredKeys.all (fun k => hasKey s k)

/-- Some per-platform build-command key present. -/
def platformCmdPresent (s : Settings) : Bool :=
  hasKey s winCmdK || hasKey s macCmdK || hasKey s linuxCmdK

/-- Modelled from the spec: the settings parser `parseConfig` lives in
`cli.hh`, which is not among the provided sources.  The spec (§4.1, §6) says
validation requires "at least one of the platform build-command keys", and
`main` tests the presence of the key `"_cmd"`, so the parser is modelled as
recording the presence of any of `win_cmd` / `mac_cmd` / `linux_cmd` under
the key `"_cmd"`.  Only presence matters to the pipeline, so the stored
value is a marker. -/
def normalizeCmd (s : Settings) : Settings :=
  if platformCmdPresent s then setS s cmdK "1".data else s

/-! ## Debug-mode mutation (lines 155–159) -/

/-- The debug-mode mutation: append `-dev` to `name`, `title`, `executable`. -/
def applyDebugSuffix (s : Settings) : Settings :=
  let s1 := setS s nameK (getS s nameK ++ devSuffix)
  let s2 := setS s1 titleK (getS s1 titleK ++ devSuffix)
  setS s2 execK (getS s2 execK ++ devSuffix)

/-- The debug phase of the pipeline: apply the suffix exactly when debug mode
is on (it is on by default). -/
def debugPhase (debug : Bool) (s : Settings) : Settings :=
  if debug then applyDebugSuffix s else s

/-- The configuration phase of `main` in order: parse (modelled), validate
(exit 1 with a message on a missing key), then the debug mutation.  Path
derivation happens only on the output of this phase. -/
def configPhase (debug : Bool) (s : Settings) : Except (Str × Nat) Settings :=
  match validateSettings (normalizeCmd s) with
  | ValidationResult.missing msg => Except.error (msg, 1)
  | ValidationResult.ok => Except.ok (debugPhase debug (normalizeCmd s))

/-! ## Platform layout resolution (lines 185–367) -/

/-- macOS package name: `<name>.app`. -/
def macPackageName (s : Settings) : Str := getS s nameK ++ ".app".data

/-- macOS package root: `target / output / <name>.app`. -/
def macPathPackage (target : FsPath) (s : Settings) : FsPath :=
  target ++ [getS s outputK, macPackageName s]

/-- macOS binary directory: `<package> / Contents / MacOS`. -/
def macPathBin (target : FsPath) (s : Settings) : FsPath :=
  macPathPackage target s ++ ["Contents".data, "MacOS".data]

/-- Linux package name, Debian convention:
`<executable>_<version>-<revision>_<arch>`. -/
def linuxPackageName (s : Settings) : Str :=
  getS s execK ++ "_".data ++ getS s versionK ++ "-".data ++
    getS s revisionK ++ "_".data ++ getS s archK

/-- Linux package root: `target / output / <packageName>`. -/
def linuxPathPackage (target : FsPath) (s : Settings) : FsPath :=
  target ++ [getS s outputK, linuxPackageName s]

/-- Linux binary directory: `<package> / opt / <name>`. -/
def linuxPathBin (target : FsPath) (s : Settings) : FsPath :=
  linuxPathPackage target s ++ ["opt".data, getS s nameK]

/-- Windows package name: `<executable>-<version>`. -/
def winPackageName (s : Settings) : Str :=
  getS s execK ++ "-".data ++ getS s versionK

/-- Windows package root: `cwd / target / output / <packageName>`. -/
def winPathPackage (cwd target : FsPath) (s : Settings) : FsPath :=
  cwd ++ target ++ [getS s outputK, winPackageName s]

/-- Windows binary directory: the package root itself. -/
def winPathBin (cwd target : FsPath) (s : Settings) : FsPath :=
  winPathPackage cwd target s

/-- The executable file name (`.exe` appended on Windows). -/
def executableFile (win : Bool) (s : Settings) : Str :=
  getS s execK ++ (if win then ".exe".data else [])

/-- Linux binary path: `pathBin / executable`. -/
def linuxBinaryPath (target : FsPath) (s : Settings) : FsPath :=
  linuxPathBin target s ++ [executableFile false s]

/-- macOS binary path: `pathBin / executable`. -/
def macBinaryPath (target : FsPath) (s : Settings) : FsPath :=
  macPathBin target s ++ [executableFile false s]

/-- Windows binary path: `pathBin / executable.exe`. -/
def winBinaryPath (cwd target : FsPath) (s : Settings) : FsPath :=
  winPathBin cwd target s ++ [executableFile true s]

/-! ## Compile-step gating (lines 420–430) -/

/-- The guard on the native compile step:
`flagRunUserBuild == false || !binExists`. -/
def compileInvoked (flagRunUserBuild binExists : Bool) : Bool :=
  !flagRunUserBuild || !binExists

/-! ## The user build step (lines 376–397) -/

/-- The user build step as a transition on the working directory.  `main`
saves `oldCwd`, changes into `oldCwd / target`, runs the user command, and—
only when the command exited zero—changes back to `oldCwd`; a nonzero exit
calls `exit` with that code while the working directory is still the target.
Result: `(abort code if any, working directory at the end of the step)`. -/
def userBuildStep (oldCwd target : FsPath) (exitCode : Int) : Option Int × FsPath :=
  let cwd := oldCwd ++ target
  if exitCode ≠ 0 then (some exitCode, cwd) else (none, oldCwd)

/-! ## Notarization (lines 592–698)

The C++ extracts a request identifier from the submit command's output with
the ECMAScript regex `\nRequestUUID = (.+?)\n` and a status phrase from the
status command's output with `\n *Status: (.+?)\n`, taking the first match's
first group.  Since `.` does not match a newline and `(.+?)` is lazy, at a
given start position the capture is exactly the nonempty run of characters
up to the next newline, which must exist; `regex_search` takes the leftmost
matching start position. -/

/-- Capture `(.+?)` followed by `\n` at the head of `l`: the nonempty run of
non-newline characters, provided a newline follows it. -/
def captureLine (l : Str) : Option Str :=
  let cap := l.takeWhile (fun c => c ≠ '\n')
  if cap.isEmpty then none
  else if (l.drop cap.length).head? = some '\n' then some cap else none

/-- Try to match `\n *Status: (.+?)\n` starting exactly at the head of `l`
(the greedy ` *` run is the maximal run of spaces; `Status: ` must follow). -/
def tryStatusAt (l : Str) : Option Str :=
  match l with
  | '\n' :: rest =>
      let r := rest.dropWhile (fun c => c = ' ')
      if "Status: ".data.isPrefixOf r then captureLine (r.drop 8) else none
  | _ => none

/-- The status-phrase extraction: first match of `\n *Status: (.+?)\n` in the
status command's output; the empty string when there is no match (the C++
leaves `status` empty). -/
def extractStatus : Str → Str
  | [] => []
  | c :: rest =>
      match tryStatusAt (c :: rest) with
      | some cap => cap
      | none => extractStatus rest

/-- Try to match `\nRequestUUID = (.+?)\n` starting exactly at the head. -/
def tryUUIDAt (l : Str) : Option Str :=
  match l with
  | '\n' :: rest =>
      if "RequestUUID = ".data.isPrefixOf rest then
        captureLine (rest.drop 14)
      else none
  | _ => none

/-- The request-identifier extraction: first match of
`\nRequestUUID = (.+?)\n` in the submit command's output; empty when there
is no match (the C++ leaves `uuid` empty). -/
def extractUUID : Str → Str
  | [] => []
  | c :: rest =>
      match tryUUIDAt (c :: rest) with
      | some cap => cap
      | none => extractUUID rest

/-- What one poll iteration does with the extracted status phrase. -/
inductive PollAction where
  | polling : PollAction
  | rejected : PollAction
  | success : PollAction
  | failure : PollAction
deriving DecidableEq

/-- The poll-loop classifier, in the order the C++ tests the phrase:
`"in progress"` → keep polling (`continue`); else `"invalid"` → rejection
(history is fetched, then `exit`); else `"success"` → success (`break`);
else → terminal failure (`break` with "apple was unable to notarize"). -/
def classifyStatus (st : Str) : PollAction :=
  if containsSub "in progress".data st then PollAction.polling
  else if containsSub "invalid".data st then PollAction.rejected
  else if containsSub "success".data st then PollAction.success
  else PollAction.failure

/-- Terminal outcome of the poll loop. -/
inductive PollResult where
  | timedOut : PollResult
  | rejected : PollResult
  | success : PollResult
  | failure : PollResult
deriving DecidableEq

/-- The poll loop of the Notarizer, from `int requests = 0`.  Each iteration
first increments `requests` and exits with `TimedOut` when the incremented
count exceeds 1024; otherwise it queries the status command (`statusOf n` is
the output of the `n`-th query, counted from 0) and acts on the classified
phrase.  Returns the terminal result together with the number of
status-query iterations performed. -/
def pollLoop (statusOf : Nat → Str) (requests : Nat) : PollResult × Nat :=
  if h : requests + 1 > 1024 then (PollResult.timedOut, 0)
  else
    match classifyStatus (extractStatus (statusOf requests)) with
    | PollAction.polling =>
        let p := pollLoop statusOf (requests + 1)
        (p.1, p.2 + 1)
    | PollAction.rejected => (PollResult.rejected, 1)
    | PollAction.success => (PollResult.success, 1)
    | PollAction.failure => (PollResult.failure, 1)
termination_by 1025 - requests
decreasing_by omega

/-- Outcome of the whole notarization step: either the process exits with a
code, or the step finishes (logging "finished notarization") and the
pipeline continues; `polls` counts the status queries performed. -/
inductive NotarizeOutcome where
  | aborted (code : Int) : NotarizeOutcome
  | finished (polls : Nat) : NotarizeOutcome
deriving DecidableEq

/-- The notarization step (macOS, `-mn`): run the submit command (nonzero
exit aborts with that code), extract the request identifier, and — only when
one was found — run the poll loop.  Rejection fetches the notarization
history (aborting with its exit code if that command fails, else `exit(1)`);
timeout is `exit(1)`; success and the fallback failure both break out and
let the pipeline continue. -/
def notarizeStep (submitExit : Int) (submitOut : Str) (statusOf : Nat → Str)
    (historyExit : Int) : NotarizeOutcome :=
  if submitExit ≠ 0 then NotarizeOutcome.aborted submitExit
  else
    let uuid := extractUUID submitOut
    if uuid.isEmpty then NotarizeOutcome.finished 0
    else
      match pollLoop statusOf 0 with
      | (PollResult.timedOut, _) => NotarizeOutcome.aborted 1
      | (PollResult.rejected, _) =>
          NotarizeOutcome.aborted (if historyExit ≠ 0 then historyExit else 1)
      | (PollResult.success, n) => NotarizeOutcome.finished n
      | (PollResult.failure, n) => NotarizeOutcome.finished n

/-! ## Command-line flag scanning (lines 86–122)

`main` iterates over the whole of `std::span(argv, argc)` — the program name
and the positional project directory included — and tests each argument with
`std::string::find(flag) != -1`, i.e. substring containment.  A `-h` hit
calls `help()`, which exits 0 immediately (within the scan, after the `-c`
test of the same argument). -/

structure Flags where
  runUserBuild : Bool
  appStore : Bool
  codeSign : Bool
  shouldRun : Bool
  entitlements : Bool
  shouldNotarize : Bool
  debugMode : Bool
  shouldPackage : Bool
deriving DecidableEq

/-- The flag defaults set at the top of `main` (debug mode on). -/
def initFlags : Flags :=
  { runUserBuild := false, appStore := false, codeSign := false
    shouldRun := false, entitlements := false, shouldNotarize := false
    debugMode := true, shouldPackage := false }

/-- The test `main` performs on one argument before the `-h` check: the `-c`
flag, first in source order. -/
def applyArgPre (f : Flags) (a : Str) : Flags :=
  if containsSub "-c".data a then { f with codeSign := true } else f

/-- The tests `main` performs on one argument after the `-h` check, in source
order: `-me`, `-mn`, `-o`, `-p`, `-r`, `-s`, `-xd`. -/
def applyArgRest (f : Flags) (a : Str) : Flags :=
  let f := if containsSub "-me".data a then { f with entitlements := true } else f
  let f := if containsSub "-mn".data a then { f with shouldNotarize := true } else f
  let f := if containsSub "-o".data a then { f with runUserBuild := true } else f
  let f := if containsSub "-p".data a then { f with shouldPackage := true } else f
  let f := if containsSub "-r".data a then { f with shouldRun := true } else f
  let f := if containsSub "-s".data a then { f with appStore := true } else f
  if containsSub "-xd".data a then { f with debugMode := false } else f

/-- The argument scan; `none` means `help()` ran and the process exited 0
(the `-h` test runs between the `-c` test and the remaining tests of the
same argument). -/
def scanArgs (f : Flags) : List Str → Option Flags
  | [] => some f
  | a :: rest =>
      let f := applyArgPre f a
      if containsSub "-h".data a then none
      else scanArgs (applyArgRest f a) rest

/-! ## Example configurations used by witnesses -/

/-- A settings mapping with every mandatory key plus a Linux build command. -/
def sampleSettings : Settings :=
  [(nameK, "foo".data), (titleK, "Foo".data), (execK, "foo".data),
   (outputK, "dist".data), (versionK, "1.0".data), (archK, "amd64".data),
   (revisionK, "1".data), (linuxCmdK, "true".data)]

/-- The settings mapping of the spec's Linux end-to-end scenario. -/
def linuxScenarioSettings : Settings :=
  [(nameK, "foo".data), (execK, "foo".data), (outputK, "dist".data),
   (versionK, "1.0".data), (archK, "amd64".data), (revisionK, "1".data),
   (linuxCmdK, "true".data)]

/-! ## Theorems -/

/-- C6: the native compile step is skipped exactly when "run previous build
only" (`-o`) is requested and a file already exists at the resolved binary
path; the decision is the pure existence test `fs::exists(binaryPath)`, and
in every other case the compile command is invoked. -/
theorem compile_skip_iff (flagRunUserBuild binExists : Bool) :
    compileInvoked flagRunUserBuild binExists = false ↔
      flagRunUserBuild = true ∧ binExists = true := by
  cases flagRunUserBuild <;> cases binExists <;> simp [compileInvoked]

/-- C4 (counterexample): when the user build command exits nonzero (here 1),
the run aborts with the working directory still set to the project target,
not restored to the saved original, so the restoration is not
unconditional. -/
theorem userBuild_failure_cwd_not_restored :
    userBuildStep ["home".data] ["proj".data] 1 =
      (some 1, ["home".data, "proj".data]) ∧
    (["home".data, "proj".data] : FsPath) ≠ (["home".data] : FsPath) := by
  constructor
  · rfl
  · decide

/-- C4 (amended): after a successful user build command the original working
directory is restored before the pipeline proceeds; a nonzero exit aborts
the run with that command's exit code immediately, without restoring the
working directory. -/
theorem userBuild_cwd (oldCwd target : FsPath) (exitCode : Int) :
    (exitCode = 0 → userBuildStep oldCwd target exitCode = (none, oldCwd)) ∧
    (exitCode ≠ 0 →
      userBuildStep oldCwd target exitCode = (some exitCode, oldCwd ++ target)) := by
  constructor
  · intro h
    simp [userBuildStep, h]
  · intro h
    simp [userBuildStep, h]

/-- Witness for `userBuild_cwd` at exit codes 0 and 7. -/
theorem userBuild_cwd_witness :
    userBuildStep ["home".data] ["proj".data] 0 = (none, ["home".data]) ∧
    userBuildStep ["home".data] ["proj".data] 7 =
      (some 7, ["home".data] ++ ["proj".data]) :=
  ⟨(userBuild_cwd ["home".data] ["proj".data] 0).1 rfl,
   (userBuild_cwd ["home".data] ["proj".data] 7).2 (by decide)⟩

/-- C1 (counterexample): with a submit command that exits 0 but whose output
contains no `RequestUUID` line, the notarization step finishes with zero
poll iterations and the pipeline continues — the run is *not* aborted. -/
theorem notarize_no_uuid_not_aborted :
    notarizeStep 0 "RequestUUID not present here".data (fun _ => []) 0 =
      NotarizeOutcome.finished 0 ∧
    NotarizeOutcome.finished 0 ≠ NotarizeOutcome.aborted 1 := by
  constructor
  · decide
  · decide

/-- C1 (amended): if the submit command exits 0 and its output contains no
request identifier matching the `RequestUUID` pattern, the poll loop is
never entered — no polling and no retry occur — and the notarization step
finishes without aborting, so the pipeline continues past notarization. -/
theorem notarize_no_uuid_skips_poll (submitOut : Str) (statusOf : Nat → Str)
    (historyExit : Int) (h : extractUUID submitOut = []) :
    notarizeStep 0 submitOut statusOf historyExit = NotarizeOutcome.finished 0 := by
  simp [notarizeStep, h]

/-- Witness for `notarize_no_uuid_skips_poll` on a concrete submit output. -/
theorem notarize_no_uuid_skips_poll_witness :
    notarizeStep 0 "No errors uploading package".data (fun _ => []) 0 =
      NotarizeOutcome.finished 0 :=
  notarize_no_uuid_skips_poll "No errors uploading package".data (fun _ => []) 0
    (by decide)

/-- C8: on Linux the package name follows
`<executable>_<version>-<revision>_<arch>`; for the spec's scenario settings
(debug mode disabled) the package root is `dist/foo_1.0-1_amd64` under the
project target and the binary lands at
`dist/foo_1.0-1_amd64/opt/foo/foo`. -/
theorem linux_layout_scenario (target : FsPath) :
    linuxPackageName (debugPhase false linuxScenarioSettings) =
      "foo_1.0-1_amd64".data ∧
    linuxPathPackage target (debugPhase false linuxScenarioSettings) =
      target ++ ["dist".data, "foo_1.0-1_amd64".data] ∧
    linuxBinaryPath target (debugPhase false linuxScenarioSettings) =
      target ++ ["dist".data, "foo_1.0-1_amd64".data] ++
        ["opt".data, "foo".data] ++ ["foo".data] := by
  refine ⟨by decide, ?_, ?_⟩
  · unfold linuxPathPackage
    exact congrArg (fun l => target ++ l) (by decide)
  · unfold linuxBinaryPath linuxPathBin linuxPathPackage
    rw [show [getS (debugPhase false linuxScenarioSettings) outputK,
        linuxPackageName (debugPhase false linuxScenarioSettings)] =
        ["dist".data, "foo_1.0-1_amd64".data] from by decide,
      show ["opt".data, getS (debugPhase false linuxScenarioSettings) nameK] =
        ["opt".data, "foo".data] from by decide,
      show [executableFile false (debugPhase false linuxScenarioSettings)] =
        ["foo".data] from by decide]

/-- C2 (counterexample): a status phrase containing "invalid" does not
always lead to rejection — when it also contains "in progress" the loop
keeps polling, because the "in progress" test comes first. -/
theorem classify_invalid_can_poll :
    containsSub "invalid".data
      (extractStatus "\nStatus: invalid while in progress\n".data) = true ∧
    classifyStatus
      (extractStatus "\nStatus: invalid while in progress\n".data) =
      PollAction.polling ∧
    PollAction.polling ≠ PollAction.rejected := by
  refine ⟨by decide, by decide, by decide⟩

/-- C2 (amended): the poll-loop classifier is a priority-ordered four-way
total classification of the extracted status phrase: "in progress" is
tested first and keeps polling (even if "invalid" or "success" also occur);
otherwise "invalid" gives rejection; otherwise "success" ends the loop as
success; otherwise — the empty or unparseable phrase included — the loop
ends as a terminal failure distinct from rejection and never keeps polling.
Each terminal classification ends the loop at that very query. -/
theorem classify_priority (t : Str) :
    (containsSub "in progress".data (extractStatus t) = true →
        classifyStatus (extractStatus t) = PollAction.polling) ∧
    (containsSub "in progress".data (extractStatus t) = false →
      containsSub "invalid".data (extractStatus t) = true →
        classifyStatus (extractStatus t) = PollAction.rejected) ∧
    (containsSub "in progress".data (extractStatus t) = false →
      containsSub "invalid".data (extractStatus t) = false →
      containsSub "success".data (extractStatus t) = true →
        classifyStatus (extractStatus t) = PollAction.success) ∧
    (containsSub "in progress".data (extractStatus t) = false →
      containsSub "invalid".data (extractStatus t) = false →
      containsSub "success".data (extractStatus t) = false →
        classifyStatus (extractStatus t) = PollAction.failure) ∧
    (classifyStatus (extractStatus t) = PollAction.rejected →
        pollLoop (fun _ => t) 0 = (PollResult.rejected, 1)) ∧
    (classifyStatus (extractStatus t) = PollAction.success →
        pollLoop (fun _ => t) 0 = (PollResult.success, 1)) ∧
    (classifyStatus (extractStatus t) = PollAction.failure →
        pollLoop (fun _ => t) 0 = (PollResult.failure, 1)) ∧
    PollAction.failure ≠ PollAction.rejected ∧
    PollAction.failure ≠ PollAction.polling := by
  refine ⟨?_, ?_, ?_, ?_, ?_, ?_, ?_, by decide, by decide⟩
  · intro h1
    simp [classifyStatus, h1]
  · intro h1 h2
    simp [classifyStatus, h1, h2]
  · intro h1 h2 h3
    simp [classifyStatus, h1, h2, h3]
  · intro h1 h2 h3
    simp [classifyStatus, h1, h2, h3]
  · intro h
    rw [pollLoop]
    simp only [h]
    norm_num
  · intro h
    rw [pollLoop]
    simp only [h]
    norm_num
  · intro h
    rw [pollLoop]
    simp only [h]
    norm_num

/-- Witness for `classify_priority`: a plain "invalid" phrase is rejected,
a plain "success" phrase ends the loop as success after one query. -/
theorem classify_priority_witness :
    classifyStatus (extractStatus "\nStatus: invalid\n".data) =
      PollAction.rejected ∧
    pollLoop (fun _ => "\nStatus: success\n".data) 0 = (PollResult.success, 1) := by
  constructor
  · exact (classify_priority "\nStatus: invalid\n".data).2.1 (by decide) (by decide)
  · exact (classify_priority "\nStatus: success\n".data).2.2.2.2.2.1 (by decide)

/-- If every status query keeps classifying as "in progress", the loop
started at request count `r` times out after `1024 - r` further queries. -/
theorem pollLoop_always_polling (statusOf : Nat → Str)
    (h : ∀ n, classifyStatus (extractStatus (statusOf n)) = PollAction.polling) :
    ∀ r, pollLoop statusOf r = (PollResult.timedOut, 1024 - r) := by
  have key : ∀ m r, 1025 - r ≤ m →
      pollLoop statusOf r = (PollResult.timedOut, 1024 - r) := by
    intro m
    induction m with
    | zero =>
        intro r hr
        rw [pollLoop]
        have hb : r + 1 > 1024 := by omega
        have h0 : 1024 - r = 0 := by omega
        simp [hb, h0]
    | succ m ih =>
        intro r hr
        rw [pollLoop]
        by_cases hb : r + 1 > 1024
        · have h0 : 1024 - r = 0 := by omega
          simp [hb, h0]
        · rw [dif_neg hb, h r]
          rw [ih (r + 1) (by omega)]
          simp
          omega
  intro r
  exact key (1025 - r) r (Nat.le_refl _)

/-- No run of the poll loop started at request count `r` performs more than
`1024 - r` status queries. -/
theorem pollLoop_count_le (statusOf : Nat → Str) (r : Nat) :
    (pollLoop statusOf r).2 ≤ 1024 - r := by
  have key : ∀ m r, 1025 - r ≤ m → (pollLoop statusOf r).2 ≤ 1024 - r := by
    intro m
    induction m with
    | zero =>
        intro r hr
        rw [pollLoop]
        have hb : r + 1 > 1024 := by omega
        simp [hb]
    | succ m ih =>
        intro r hr
        rw [pollLoop]
        by_cases hb : r + 1 > 1024
        · simp [hb]
        · rw [dif_neg hb]
          cases hcl : classifyStatus (extractStatus (statusOf r)) with
          | polling =>
              simp only [hcl]
              have hih := ih (r + 1) (by omega)
              show (pollLoop statusOf (r + 1)).2 + 1 ≤ 1024 - r
              omega
          | rejected => simp only [hcl]; show 1 ≤ 1024 - r; omega
          | success => simp only [hcl]; show 1 ≤ 1024 - r; omega
          | failure => simp only [hcl]; show 1 ≤ 1024 - r; omega
  exact key (1025 - r) r (Nat.le_refl _)

/-- C3: with a status command that always reports "in progress", the poll
loop performs exactly 1024 status-query iterations and then terminates as
`TimedOut`, in which case the notarization step aborts the run with exit
code 1; and for every status command, the loop never performs more than
1024 query iterations. -/
theorem poll_ceiling (statusOf : Nat → Str) :
    ((∀ n, classifyStatus (extractStatus (statusOf n)) = PollAction.polling) →
        pollLoop statusOf 0 = (PollResult.timedOut, 1024) ∧
        (∀ submitOut historyExit, extractUUID submitOut ≠ [] →
          notarizeStep 0 submitOut statusOf historyExit =
            NotarizeOutcome.aborted 1)) ∧
    (pollLoop statusOf 0).2 ≤ 1024 := by
  constructor
  · intro h
    have h0 := pollLoop_always_polling statusOf h 0
    refine ⟨by simpa using h0, ?_⟩
    intro submitOut historyExit hne
    have hF : (extractUUID submitOut).isEmpty = false := by
      cases hu : extractUUID submitOut with
      | nil => exact absurd hu hne
      | cons c rest => rfl
    simp [notarizeStep, hF, h0]
  · simpa using pollLoop_count_le statusOf 0

/-- Witness for `poll_ceiling`: a status command that always answers
"in progress" times out after exactly 1024 queries, and the step aborts
with exit code 1 when a request identifier was extracted. -/
theorem poll_ceiling_witness :
    pollLoop (fun _ => "\nStatus: in progress\n".data) 0 =
      (PollResult.timedOut, 1024) ∧
    notarizeStep 0 "\nRequestUUID = 1234-ABCD\n".data
      (fun _ => "\nStatus: in progress\n".data) 0 = NotarizeOutcome.aborted 1 := by
  have h := (poll_ceiling (fun _ => "\nStatus: in progress\n".data)).1
    (fun n => by decide)
  exact ⟨h.1, h.2 "\nRequestUUID = 1234-ABCD\n".data 0 (by decide)⟩

/-- The debug mutation appends the suffix to `name`. -/
theorem applyDebug_name (s : Settings) :
    getS (applyDebugSuffix s) nameK = getS s nameK ++ devSuffix := by
  simp only [applyDebugSuffix]
  rw [getS_setS_ne _ execK _ nameK (by decide),
    getS_setS_ne _ titleK _ nameK (by decide), getS_setS_self]

/-- The debug mutation appends the suffix to `title`. -/
theorem applyDebug_title (s : Settings) :
    getS (applyDebugSuffix s) titleK = getS s titleK ++ devSuffix := by
  simp only [applyDebugSuffix]
  rw [getS_setS_ne _ execK _ titleK (by decide), getS_setS_self,
    getS_setS_ne _ nameK _ titleK (by decide)]

/-- The debug mutation appends the suffix to `executable`. -/
theorem applyDebug_exec (s : Settings) :
    getS (applyDebugSuffix s) execK = getS s execK ++ devSuffix := by
  simp only [applyDebugSuffix]
  rw [getS_setS_self, getS_setS_ne _ titleK _ execK (by decide),
    getS_setS_ne _ nameK _ execK (by decide)]

/-- The debug mutation leaves every other key unchanged. -/
theorem applyDebug_other (s : Settings) (k : Str) (h1 : nameK ≠ k)
    (h2 : titleK ≠ k) (h3 : execK ≠ k) :
    getS (applyDebugSuffix s) k = getS s k := by
  simp only [applyDebugSuffix]
  rw [getS_setS_ne _ _ _ _ h3, getS_setS_ne _ _ _ _ h2, getS_setS_ne _ _ _ _ h1]

/-- The modelled parser normalization touches only the `_cmd` marker. -/
theorem getS_normalizeCmd (s : Settings) (k : Str) (h : cmdK ≠ k) :
    getS (normalizeCmd s) k = getS s k := by
  unfold normalizeCmd
  split
  · exact getS_setS_ne _ _ _ _ h
  · rfl

/-- C5: when debug mode is on, the configuration phase appends `-dev` to
`name`, `title` and `executable` exactly once relative to the parsed
settings, leaves the other keys alone, and every package name later derived
(macOS, Linux, Windows) is built from the already-suffixed values — the
mutation precedes all derivation and is never applied twice. -/
theorem debug_suffix_once (s s' : Settings)
    (h : configPhase true s = Except.ok s') :
    getS s' nameK = getS s nameK ++ devSuffix ∧
    getS s' titleK = getS s titleK ++ devSuffix ∧
    getS s' execK = getS s execK ++ devSuffix ∧
    getS s' outputK = getS s outputK ∧
    getS s' versionK = getS s versionK ∧
    getS s' revisionK = getS s revisionK ∧
    getS s' archK = getS s archK ∧
    macPackageName s' = (getS s nameK ++ devSuffix) ++ ".app".data ∧
    linuxPackageName s' =
      (getS s execK ++ devSuffix) ++ "_".data ++ getS s versionK ++ "-".data ++
        getS s revisionK ++ "_".data ++ getS s archK ∧
    winPackageName s' = (getS s execK ++ devSuffix) ++ "-".data ++ getS s versionK := by
  have hs' : s' = applyDebugSuffix (normalizeCmd s) := by
    unfold configPhase at h
    cases hv : validateSettings (normalizeCmd s) with
    | ok =>
        rw [hv] at h
        injection h with h
        rw [← h]
        rfl
    | missing msg =>
        rw [hv] at h
        cases h
  subst hs'
  have hname : getS (applyDebugSuffix (normalizeCmd s)) nameK =
      getS s nameK ++ devSuffix := by
    rw [applyDebug_name, getS_normalizeCmd s nameK (by decide)]
  have htitle : getS (applyDebugSuffix (normalizeCmd s)) titleK =
      getS s titleK ++ devSuffix := by
    rw [applyDebug_title, getS_normalizeCmd s titleK (by decide)]
  have hexec : getS (applyDebugSuffix (normalizeCmd s)) execK =
      getS s execK ++ devSuffix := by
    rw [applyDebug_exec, getS_normalizeCmd s execK (by decide)]
  have hout : getS (applyDebugSuffix (normalizeCmd s)) outputK = getS s outputK := by
    rw [applyDebug_other _ _ (by decide) (by decide) (by decide),
      getS_normalizeCmd s outputK (by decide)]
  have hver : getS (applyDebugSuffix (normalizeCmd s)) versionK = getS s versionK := by
    rw [applyDebug_other _ _ (by decide) (by decide) (by decide),
      getS_normalizeCmd s versionK (by decide)]
  have hrev : getS (applyDebugSuffix (normalizeCmd s)) revisionK = getS s revisionK := by
    rw [applyDebug_other _ _ (by decide) (by decide) (by decide),
      getS_normalizeCmd s revisionK (by decide)]
  have harch : getS (applyDebugSuffix (normalizeCmd s)) archK = getS s archK := by
    rw [applyDebug_other _ _ (by decide) (by decide) (by decide),
      getS_normalizeCmd s archK (by decide)]
  refine ⟨hname, htitle, hexec, hout, hver, hrev, harch, ?_, ?_, ?_⟩
  · rw [macPackageName, hname]
  · rw [linuxPackageName, hexec, hver, hrev, harch]
  · rw [winPackageName, hexec, hver]

/-- Witness for `debug_suffix_once` on the sample settings. -/
theorem debug_suffix_once_witness :
    getS (applyDebugSuffix (normalizeCmd sampleSettings)) nameK =
      getS sampleSettings nameK ++ devSuffix :=
  (debug_suffix_once sampleSettings
    (applyDebugSuffix (normalizeCmd sampleSettings)) (by rfl)).1

/-- C7: on every platform the resolved binary directory sits inside the
resolved package root — macOS at `<package>/Contents/MacOS`, Linux at
`<package>/opt/<name>`, Windows at the package root itself — and
consequently the binary path is a descendant of the package root. -/
theorem layout_bin_descendant (cwd target : FsPath) (s : Settings)
    (h : hasAllMandatory s = true) :
    macPathBin target s =
      macPathPackage target s ++ ["Contents".data, "MacOS".data] ∧
    macPathPackage target s <+: macBinaryPath target s ∧
    linuxPathBin target s =
      linuxPathPackage target s ++ ["opt".data, getS s nameK] ∧
    linuxPathPackage target s <+: linuxBinaryPath target s ∧
    winPathBin cwd target s = winPathPackage cwd target s ∧
    winPathPackage cwd target s <+: winBinaryPath cwd target s := by
  refine ⟨rfl, ?_, rfl, ?_, rfl, ?_⟩
  · exact ⟨["Contents".data, "MacOS".data] ++ [executableFile false s],
      by simp [macBinaryPath, macPathBin, List.append_assoc]⟩
  · exact ⟨["opt".data, getS s nameK] ++ [executableFile false s],
      by simp [linuxBinaryPath, linuxPathBin, List.append_assoc]⟩
  · exact ⟨[executableFile true s], rfl⟩

/-- Witness for `layout_bin_descendant` on the sample settings. -/
theorem layout_bin_descendant_witness :
    hasAllMandatory sampleSettings = true ∧
    linuxPathPackage [] sampleSettings <+: linuxBinaryPath [] sampleSettings :=
  ⟨by decide, (layout_bin_descendant [] [] sampleSettings (by decide)).2.2.2.1⟩

theorem hasKey_setS_self (s : Settings) (k v : Str) :
    hasKey (setS s k v) k = true := by
  induction s with
  | nil => simp [setS, hasKey]
  | cons p rest ih =>
      obtain ⟨k', v'⟩ := p
      by_cases h : k' = k
      · simp [setS, h, hasKey]
      · simp [setS, h, hasKey, ih]

theorem hasKey_setS_ne (s : Settings) (k v k₂ : Str) (h : k ≠ k₂) :
    hasKey (setS s k v) k₂ = hasKey s k₂ := by
  induction s with
  | nil => simp [setS, hasKey, h]
  | cons p rest ih =>
      obtain ⟨k', v'⟩ := p
      by_cases hk : k' = k
      · simp [setS, hk, hasKey, h]
      · by_cases hk2 : k' = k₂
        · subst hk2; simp [setS, hk, hasKey]
        · simp [setS, hk, hasKey, hk2, ih]

/-- The modelled parser normalization does not create or remove keys other
than the `_cmd` marker. -/
theorem hasKey_normalizeCmd_ne (s : Settings) (k : Str) (h : cmdK ≠ k) :
    hasKey (normalizeCmd s) k = hasKey s k := by
  unfold normalizeCmd
  split
  · exact hasKey_setS_ne _ _ _ _ h
  · rfl

/-- On raw settings without a literal `_cmd` key, the parsed mapping has the
`_cmd` marker exactly when some platform build-command key is present. -/
theorem hasKey_normalizeCmd_cmd (s : Settings) (hraw : hasKey s cmdK = false) :
    hasKey (normalizeCmd s) cmdK = platformCmdPresent s := by
  unfold normalizeCmd
  split
  · rename_i hp
    rw [hasKey_setS_self, hp]
  · rename_i hp
    simp only [Bool.not_eq_true] at hp
    rw [hraw, hp]

/-- C9: validation runs on the parsed mapping before any path derivation
(the configuration phase yields the settings used for derivation only after
the checks pass).  For raw settings without a literal `_cmd` key: the phase
succeeds — changing nothing except the modelled `_cmd` marker — exactly when
every mandatory key and some per-platform build-command key is present;
a missing platform command exits 1 with the fixed message; a missing
mandatory key exits 1 with a message naming that key. -/
theorem validation_gate (debug : Bool) (s : Settings)
    (hraw : hasKey s cmdK = false) :
    (configPhase debug s = Except.ok (debugPhase debug (normalizeCmd s)) ↔
        platformCmdPresent s = true ∧ hasAllMandatory s = true) ∧
    (∀ k, cmdK ≠ k → getS (normalizeCmd s) k = getS s k) ∧
    (platformCmdPresent s = false →
        configPhase debug s = Except.error (cmdMissingMsg, 1)) ∧
    (platformCmdPresent s = true → hasAllMandatory s = false →
        ∃ k msg, k ∈ requiredKeys ∧ hasKey s k = false ∧
          containsSub k msg = true ∧
          configPhase debug s = Except.error (msg, 1)) := by
  have hcmd := hasKey_normalizeCmd_cmd s hraw
  have hreq : ∀ k, k ∈ requiredKeys → hasKey (normalizeCmd s) k = hasKey s k := by
    intro k hk
    apply hasKey_normalizeCmd_ne
    fin_cases hk <;> decide
  have case_cmd : platformCmdPresent s = false →
      validateSettings (normalizeCmd s) = ValidationResult.missing cmdMissingMsg := by
    intro hp
    rw [hp] at hcmd
    simp [validateSettings, hcmd]
  have case_ok : platformCmdPresent s = true → hasAllMandatory s = true →
      validateSettings (normalizeCmd s) = ValidationResult.ok := by
    intro hp hall
    have hfind : requiredKeys.find? (fun k => !(hasKey (normalizeCmd s) k)) = none := by
      apply List.find?_eq_none.mpr
      intro k hk
      have hk' : hasKey s k = true :=
        List.all_eq_true.mp (by simpa [hasAllMandatory] using hall) k hk
      simp [hreq k hk, hk']
    rw [hp] at hcmd
    simp [validateSettings, hcmd, hfind]
  have case_req : platformCmdPresent s = true → hasAllMandatory s = false →
      ∃ k, k ∈ requiredKeys ∧ hasKey s k = false ∧
        validateSettings (normalizeCmd s) =
          ValidationResult.missing ("'".data ++ k ++ "' key/value is required".data) := by
    intro hp hall
    obtain ⟨k₁, hk₁, hpk⟩ : ∃ k, k ∈ requiredKeys ∧ hasKey s k = false := by
      by_contra hc
      push_neg at hc
      have : hasAllMandatory s = true := by
        simp only [hasAllMandatory, List.all_eq_true]
        intro k hk
        have := hc k hk
        simpa using this
      simp [this] at hall
    cases hf : requiredKeys.find? (fun k => !(hasKey (normalizeCmd s) k)) with
    | none =>
        exfalso
        have := List.find?_eq_none.mp hf k₁ hk₁
        simp [hreq k₁ hk₁, hpk] at this
    | some k₀ =>
        have hk₀mem : k₀ ∈ requiredKeys := List.mem_of_find?_eq_some hf
        refine ⟨k₀, hk₀mem, ?_, ?_⟩
        · have := List.find?_some hf
          simpa [hreq k₀ hk₀mem] using this
        · rw [hp] at hcmd
          simp [validateSettings, hcmd, hf]
  refine ⟨?_, fun k h => getS_normalizeCmd s k h, ?_, ?_⟩
  · constructor
    · intro hok
      by_cases hp : platformCmdPresent s = true
      · by_cases hall : hasAllMandatory s = true
        · exact ⟨hp, hall⟩
        · obtain ⟨k₀, _, _, hval⟩ :=
            case_req hp (by simpa using hall)
          rw [configPhase, hval] at hok
          cases hok
      · have hval := case_cmd (by simpa using hp)
        rw [configPhase, hval] at hok
        cases hok
    · rintro ⟨hp, hall⟩
      rw [configPhase, case_ok hp hall]
  · intro hp
    rw [configPhase, case_cmd hp]
  · intro hp hall
    obtain ⟨k₀, hkmem, hkfalse, hval⟩ := case_req hp hall
    refine ⟨k₀, "'".data ++ k₀ ++ "' key/value is required".data,
      hkmem, hkfalse, ?_, ?_⟩
    · fin_cases hkmem <;> decide
    · rw [configPhase, hval]

/-- Witness for `validation_gate`: the sample settings validate and
proceed; the empty mapping fails with the platform-command message and
exit code 1. -/
theorem validation_gate_witness :
    configPhase false sampleSettings =
      Except.ok (debugPhase false (normalizeCmd sampleSettings)) ∧
    configPhase false [] = Except.error (cmdMissingMsg, 1) := by
  constructor
  · exact (validation_gate false sampleSettings (by decide)).1.mpr
      ⟨by decide, by decide⟩
  · exact (validation_gate false [] (by decide)).2.2.1 (by decide)

theorem applyArgPre_codeSign (f : Flags) (a : Str) :
    (applyArgPre f a).codeSign = (f.codeSign || containsSub "-c".data a) := by
  unfold applyArgPre
  split_ifs <;> simp_all

theorem applyArgPre_runUserBuild (f : Flags) (a : Str) :
    (applyArgPre f a).runUserBuild = f.runUserBuild := by
  unfold applyArgPre
  split_ifs <;> rfl

theorem applyArgPre_shouldPackage (f : Flags) (a : Str) :
    (applyArgPre f a).shouldPackage = f.shouldPackage := by
  unfold applyArgPre
  split_ifs <;> rfl

theorem applyArgPre_shouldRun (f : Flags) (a : Str) :
    (applyArgPre f a).shouldRun = f.shouldRun := by
  unfold applyArgPre
  split_ifs <;> rfl

theorem applyArgRest_codeSign (f : Flags) (a : Str) :
    (applyArgRest f a).codeSign = f.codeSign := by
  unfold applyArgRest
  split_ifs <;> rfl

theorem applyArgRest_runUserBuild (f : Flags) (a : Str) :
    (applyArgRest f a).runUserBuild = (f.runUserBuild || containsSub "-o".data a) := by
  unfold applyArgRest
  split_ifs <;> simp_all

theorem applyArgRest_shouldPackage (f : Flags) (a : Str) :
    (applyArgRest f a).shouldPackage = (f.shouldPackage || containsSub "-p".data a) := by
  unfold applyArgRest
  split_ifs <;> simp_all

theorem applyArgRest_shouldRun (f : Flags) (a : Str) :
    (applyArgRest f a).shouldRun = (f.shouldRun || containsSub "-r".data a) := by
  unfold applyArgRest
  split_ifs <;> simp_all

/-- The argument scan exits via `help()` exactly when some argument contains
`-h`, and otherwise accumulates each tracked flag as "initial value or some
argument contains the flag text". -/
theorem scanArgs_spec (f : Flags) (args : List Str) :
    (scanArgs f args = none ↔
        args.any (fun a => containsSub "-h".data a) = true) ∧
    ∀ f', scanArgs f args = some f' →
      f'.codeSign = (f.codeSign || args.any (fun a => containsSub "-c".data a)) ∧
      f'.runUserBuild =
        (f.runUserBuild || args.any (fun a => containsSub "-o".data a)) ∧
      f'.shouldPackage =
        (f.shouldPackage || args.any (fun a => containsSub "-p".data a)) ∧
      f'.shouldRun = (f.shouldRun || args.any (fun a => containsSub "-r".data a)) := by
  induction args generalizing f with
  | nil =>
      constructor
      · simp [scanArgs]
      · intro f' hf'
        simp only [scanArgs, Option.some.injEq] at hf'
        subst hf'
        simp
  | cons a rest ih =>
      by_cases hh : containsSub "-h".data a = true
      · constructor
        · simp [scanArgs, hh]
        · intro f' hf'
          simp [scanArgs, hh] at hf'
      · have hsc : scanArgs f (a :: rest) =
            scanArgs (applyArgRest (applyArgPre f a) a) rest := by
          simp [scanArgs, hh]
        constructor
        · rw [hsc, (ih _).1]
          simp [hh]
        · intro f' hf'
          rw [hsc] at hf'
          obtain ⟨hc, ho, hp, hr⟩ :=
            (ih (applyArgRest (applyArgPre f a) a)).2 f' hf'
          refine ⟨?_, ?_, ?_, ?_⟩
          · rw [hc, applyArgRest_codeSign, applyArgPre_codeSign]
            simp [Bool.or_assoc]
          · rw [ho, applyArgRest_runUserBuild, applyArgPre_runUserBuild]
            simp [Bool.or_assoc]
          · rw [hp, applyArgRest_shouldPackage, applyArgPre_shouldPackage]
            simp [Bool.or_assoc]
          · rw [hr, applyArgRest_shouldRun, applyArgPre_shouldRun]
            simp [Bool.or_assoc]

/-- C10: flag detection is substring matching applied to every element of
`argv` — the program name and the positional project directory included: the
scan exits 0 via `help()` exactly when some argument contains `-h`, and the
code-sign, run-user-build-only, package and run-after-build flags are set
exactly when some argument contains `-c`, `-o`, `-p`, `-r` respectively. -/
theorem flag_scan_substring (args : List Str) :
    (scanArgs initFlags args = none ↔
        args.any (fun a => containsSub "-h".data a) = true) ∧
    ∀ f', scanArgs initFlags args = some f' →
      f'.codeSign = args.any (fun a => containsSub "-c".data a) ∧
      f'.runUserBuild = args.any (fun a => containsSub "-o".data a) ∧
      f'.shouldPackage = args.any (fun a => containsSub "-p".data a) ∧
      f'.shouldRun = args.any (fun a => containsSub "-r".data a) := by
  have h := scanArgs_spec initFlags args
  simpa [initFlags] using h

/-- Witness for `flag_scan_substring`: with `argv = ["opkit", "my-project"]`
the positional project path "my-project" contains `-p`, so the package flag
turns on with no `-p` flag passed. -/
theorem flag_scan_substring_witness :
    scanArgs initFlags ["opkit".data, "my-project".data] =
      some { initFlags with shouldPackage := true } ∧
    ({ initFlags with shouldPackage := true } : Flags).shouldPackage =
      ["opkit".data, "my-project".data].any (fun a => containsSub "-p".data a) := by
  constructor
  · decide
  · exact ((flag_scan_substring ["opkit".data, "my-project".data]).2
      { initFlags with shouldPackage := true } (by decide)).2.2.1
